import Mathlib

/-!
Shallow embedding of the ETF drift analyzer (`src/app.py`, function
`analyze_data`) and proofs about its behaviour.

Modelling conventions:
* market values and ratios are rationals (`ℚ`), standing for the exact
  arithmetic the spec describes;
* a data row carries an optional account id (`none` models a null/NaN cell;
  pandas `groupby` drops such keys);
* `pandas.DataFrame.groupby` is called with its defaults in the source, so
  group keys are sorted ascending (`sort=True`) and null keys are dropped
  (`dropna=True`); we model this with `insertionSort` over the deduplicated
  keys;
* `df[col_ticker] = df[col_ticker].astype(str).str.strip().str.upper()`
  mutates the input frame in place, so `analyze_data` returns the updated
  frame together with the analysis outcome;
* the schema check `required_cols.issubset(df.columns)` and the set
  difference `required_cols - set(df.columns)` are modelled on the list of
  configured column names.
-/

namespace DriftTool

/-- Model of Python `str.strip` on the character list of a string:
drop whitespace from the front, then from the back. -/
def stripChars (l : List Char) : List Char :=
  (l.dropWhile Char.isWhitespace).rdropWhile Char.isWhitespace

/-- Model of `.astype(str).str.strip().str.upper()` applied to one ticker
cell (src/app.py line 36): trim surrounding whitespace, then uppercase. -/
def normTicker (s : String) : String :=
  ⟨(stripChars s.data).map Char.toUpper⟩

/-- One input row of the uploaded holdings table.  `account_id = none`
models a null/NaN account cell. -/
structure Row where
  account_id : Option String
  ticker : String
  market_value : ℚ
deriving DecidableEq

/-- The input table: its column-name set (used by the schema check) and its
rows. -/
structure DataFrame where
  columns : List String
  rows : List Row
deriving DecidableEq

/-- The configuration object (config.json): column-name mapping, ordered
target weights, drift divisor, status labels. -/
structure Config where
  col_acc : String
  col_ticker : String
  col_mv : String
  target_weights : List (String × ℚ)
  drift_divisor : ℚ
  warning_label : String
  normal_label : String
deriving DecidableEq

/-- One per-ticker output cell: the ticker, its summed market value in the
account, the actual ratio and the signed deviation from target. -/
structure TickerEntry where
  ticker : String
  actual_mv : ℚ
  actual_ratio : ℚ
  deviation : ℚ
deriving DecidableEq

/-- One output row of the analysis (per account). -/
structure AccountRow where
  account_id : String
  total_mv : ℚ
  tickers : List TickerEntry
  total_drift_rate : ℚ
  ratio_us : ℚ
  dev_us : ℚ
  ratio_cn : ℚ
  dev_cn : ℚ
  is_warning : Bool
  status : String
deriving DecidableEq

/-- Normalize the ticker cell of one row (the in-place column update). -/
def normalizeRow (r : Row) : Row :=
  { r with ticker := normTicker r.ticker }

/-- The rows of one `groupby` group: those whose account id equals `acc`. -/
def groupRows (rows : List Row) (acc : String) : List Row :=
  rows.filter (fun r => r.account_id == some acc)

/-- The group keys produced by `df.groupby(col_acc)`: distinct non-null
account ids, sorted ascending (pandas default `sort=True`), null keys
dropped (pandas default `dropna=True`). -/
def groupKeys (rows : List Row) : List String :=
  ((rows.filterMap (fun r => r.account_id)).dedup).insertionSort (· ≤ ·)

/-- Model of `group[group[col_ticker] == ticker][col_mv].sum()`. -/
def actualMvOf (g : List Row) (t : String) : ℚ :=
  ((g.filter (fun r => r.ticker == t)).map (fun r => r.market_value)).sum

/-- Lookup modelling `holdings_mv.get(t, 0)`: the dict is built by
successive assignment in the ticker loop, so the last binding of a key
wins. -/
def holdingsGet (entries : List TickerEntry) (t : String) : ℚ :=
  match entries.reverse.find? (fun e => e.ticker == t) with
  | some e => e.actual_mv
  | none => 0

/-- Lookup modelling `TARGET_WEIGHTS.get(t, 0)`. -/
def weightGet (tw : List (String × ℚ)) (t : String) : ℚ :=
  match tw.find? (fun p => p.1 == t) with
  | some p => p.2
  | none => 0

/-- The body of the per-account loop of `analyze_data`
(src/app.py lines 40–88), computed over already-normalized rows. -/
def accountRow (cfg : Config) (rows : List Row) (acc : String) : AccountRow :=
  let group := groupRows rows acc
  let total_mv := (group.map (fun r => r.market_value)).sum
  let entries := cfg.target_weights.map (fun tw =>
    let actual_mv := actualMvOf group tw.1
    let actual_ratio := if total_mv > 0 then actual_mv / total_mv else 0
    { ticker := tw.1, actual_mv := actual_mv, actual_ratio := actual_ratio,
      deviation := actual_ratio - tw.2 : TickerEntry })
  let total_abs_diff := (entries.map (fun e => |e.deviation|)).sum
  let actual_us := holdingsGet entries "VTI" + holdingsGet entries "SPY"
  let target_us := weightGet cfg.target_weights "VTI" + weightGet cfg.target_weights "SPY"
  let ratio_us := if total_mv > 0 then actual_us / total_mv else 0
  let actual_cn := holdingsGet entries "MCHI" + holdingsGet entries "ASHR"
  let target_cn := weightGet cfg.target_weights "MCHI" + weightGet cfg.target_weights "ASHR"
  let ratio_cn := if total_mv > 0 then actual_cn / total_mv else 0
  let is_warning : Bool :=
    decide (|ratio_us - target_us| > (0.02 : ℚ)) || decide (|ratio_cn - target_cn| > (0.02 : ℚ))
  { account_id := acc
    total_mv := total_mv
    tickers := entries
    total_drift_rate := total_abs_diff / cfg.drift_divisor
    ratio_us := ratio_us
    dev_us := ratio_us - target_us
    ratio_cn := ratio_cn
    dev_cn := ratio_cn - target_cn
    is_warning := is_warning
    status := if is_warning then cfg.warning_label else cfg.normal_label }

/-- Outcome of one analysis call: either the schema error (with the missing
column names) or the computed account rows. -/
inductive AnalyzeResult where
  | schemaError (missing : List String)
  | ok (results : List AccountRow)
deriving DecidableEq

/-- The required column set - col_acc, col_ticker and col_mv - as built
by the source (a Python set, so duplicates collapse). -/
def requiredCols (cfg : Config) : List String :=
  [cfg.col_acc, cfg.col_ticker, cfg.col_mv].dedup

/-- Model of `analyze_data` (src/app.py lines 22–90).  Returns the data frame as it
is after the call (the ticker column is normalized in place on the success
path) together with the outcome. -/
def analyze_data (cfg : Config) (df : DataFrame) : DataFrame × AnalyzeResult :=
  if (requiredCols cfg).all (fun c => df.columns.contains c) then
    let nrows := df.rows.map normalizeRow
    let df' : DataFrame := { df with rows := nrows }
    (df', AnalyzeResult.ok ((groupKeys nrows).map (accountRow cfg nrows)))
  else
    (df, AnalyzeResult.schemaError
      ((requiredCols cfg).filter (fun c => !df.columns.contains c)))

/-- Account ids of the emitted rows, in emission order. -/
def resultIds : AnalyzeResult → List String
  | AnalyzeResult.schemaError _ => []
  | AnalyzeResult.ok rs => rs.map (fun r => r.account_id)

/-- The configuration observed in the repository: four target weights,
drift divisor 2, the two status labels. -/
def exCfg : Config :=
  { col_acc := "账户", col_ticker := "代码", col_mv := "市值"
    target_weights := [("VTI", 1/2), ("MCHI", 3/10), ("SPY", 1/10), ("ASHR", 1/10)]
    drift_divisor := 2
    warning_label := "🚨 需调仓", normal_label := "✅ 正常" }

/-- The spec's end-to-end example: account A1 holding VTI 500, MCHI 200,
CASH 300. -/
def exDf : DataFrame :=
  { columns := ["账户", "代码", "市值"]
    rows := [⟨some "A1", "VTI", 500⟩, ⟨some "A1", "MCHI", 200⟩, ⟨some "A1", "CASH", 300⟩] }

/- ### Helper lemmas on the normalization functions -/

theorem toNat_ofNat_valid {n : Nat} (h : n.isValidChar) : (Char.ofNat n).toNat = n := by
  rw [Char.ofNat, dif_pos h]; rfl

theorem toUpper_idem (c : Char) : c.toUpper.toUpper = c.toUpper := by
  unfold Char.toUpper
  by_cases h : c.toNat ≥ 97 ∧ c.toNat ≤ 122
  · rw [if_pos h]
    have ht : (Char.ofNat (c.toNat - 32)).toNat = c.toNat - 32 :=
      toNat_ofNat_valid (Or.inl (by omega))
    rw [if_neg (by omega)]
  · rw [if_neg h, if_neg h]

theorem ws_toUpper (c : Char) : (Char.toUpper c).isWhitespace = c.isWhitespace := by
  unfold Char.toUpper
  by_cases h : c.toNat ≥ 97 ∧ c.toNat ≤ 122
  · rw [if_pos h]
    have ht : (Char.ofNat (c.toNat - 32)).toNat = c.toNat - 32 :=
      toNat_ofNat_valid (Or.inl (by omega))
    have hs : (' ' : Char).toNat = 32 := rfl
    have ht9 : ('\t' : Char).toNat = 9 := rfl
    have hr : ('\r' : Char).toNat = 13 := rfl
    have hn : ('\n' : Char).toNat = 10 := rfl
    have h1 : (Char.ofNat (c.toNat - 32)).isWhitespace = false := by
      simp only [Char.isWhitespace, Bool.or_eq_false_iff, decide_eq_false_iff_not]
      refine ⟨⟨⟨?_, ?_⟩, ?_⟩, ?_⟩ <;> intro he <;>
        (have hq := congrArg Char.toNat he; rw [ht] at hq;
         simp only [hs, ht9, hr, hn] at hq; omega)
    have h2 : c.isWhitespace = false := by
      simp only [Char.isWhitespace, Bool.or_eq_false_iff, decide_eq_false_iff_not]
      refine ⟨⟨⟨?_, ?_⟩, ?_⟩, ?_⟩ <;> intro he <;>
        (have hq := congrArg Char.toNat he;
         simp only [hs, ht9, hr, hn] at hq; omega)
    rw [h1, h2]
  · rw [if_neg h]

theorem rdropWhile_map (f : α → α) (p : α → Bool) (l : List α)
    (hp : ∀ a, p (f a) = p a) :
    (l.map f).rdropWhile p = (l.rdropWhile p).map f := by
  have hpf : p ∘ f = p := funext hp
  simp only [List.rdropWhile, ← List.map_reverse, List.dropWhile_map, hpf]

theorem stripChars_map_toUpper (l : List Char) :
    stripChars (l.map Char.toUpper) = (stripChars l).map Char.toUpper := by
  unfold stripChars
  have hpf : Char.isWhitespace ∘ Char.toUpper = Char.isWhitespace := funext ws_toUpper
  rw [List.dropWhile_map, hpf, rdropWhile_map _ _ _ ws_toUpper]

theorem dropWhile_stripChars (l : List Char) :
    (stripChars l).dropWhile Char.isWhitespace = stripChars l := by
  rw [List.dropWhile_eq_self_iff]
  intro hl
  have hpre : stripChars l <+: l.dropWhile Char.isWhitespace := List.rdropWhile_prefix _ _
  have hlen : 0 < (l.dropWhile Char.isWhitespace).length := lt_of_lt_of_le hl hpre.length_le
  have hne : l.dropWhile Char.isWhitespace ≠ [] := List.length_pos.mp hlen
  have hhead := List.head_dropWhile_not Char.isWhitespace l hne
  have hget : (stripChars l).get ⟨0, hl⟩ = (l.dropWhile Char.isWhitespace).head hne := by
    rw [List.head_eq_getElem]
    simpa using hpre.getElem (by simpa using hl)
  rw [hget, hhead]
  simp

theorem stripChars_idem (l : List Char) :
    stripChars (stripChars l) = stripChars l := by
  conv_lhs => rw [stripChars]
  rw [dropWhile_stripChars]
  show (List.rdropWhile Char.isWhitespace
    (l.dropWhile Char.isWhitespace)).rdropWhile Char.isWhitespace = _
  rw [List.rdropWhile_idempotent]
  rfl

theorem normTicker_idem (s : String) : normTicker (normTicker s) = normTicker s := by
  show (⟨(stripChars ((stripChars s.data).map Char.toUpper)).map Char.toUpper⟩ : String) = _
  rw [stripChars_map_toUpper, stripChars_idem, List.map_map]
  have h : Char.toUpper ∘ Char.toUpper = Char.toUpper := funext toUpper_idem
  rw [h]
  rfl

theorem normalizeRow_idem (r : Row) : normalizeRow (normalizeRow r) = normalizeRow r := by
  simp [normalizeRow, normTicker_idem]

theorem normalizeRow_account_id (r : Row) :
    (normalizeRow r).account_id = r.account_id := rfl

/-- The per-account computation reads the input rows only through the
account's own group. -/
theorem accountRow_congr (cfg : Config) {rows rows' : List Row} (acc : String)
    (h : groupRows rows acc = groupRows rows' acc) :
    accountRow cfg rows acc = accountRow cfg rows' acc := by
  simp only [accountRow, h]

/-- Summing a mapped value over a filter and over its complement gives the
sum over the whole list. -/
theorem sum_map_filter_add_not (l : List Row) (p : Row → Bool) (f : Row → ℚ) :
    ((l.filter p).map f).sum + ((l.filter (fun x => !p x)).map f).sum
      = (l.map f).sum := by
  induction l with
  | nil => simp
  | cons x xs ih =>
    by_cases hx : p x = true
    · simp only [List.filter_cons, hx, Bool.not_true, Bool.false_eq_true, if_false, if_true,
        List.map_cons, List.sum_cons]
      rw [← ih]; ring
    · have hx' : p x = false := by simpa using hx
      simp only [List.filter_cons, hx', Bool.not_false, Bool.false_eq_true, if_false, if_true,
        List.map_cons, List.sum_cons]
      rw [← ih]; ring

/-- Boundary example: account B2's US group deviates by exactly −0.02. -/
def bdRowsExact : List Row :=
  [⟨some "B1", "VTI", 5800⟩, ⟨some "B1", "MCHI", 4000⟩, ⟨some "B1", "CASH", 200⟩]

/-- Boundary example: account B2's US group deviates by −0.0201 while the
CN group deviates by 0. -/
def bdRowsBreach : List Row :=
  [⟨some "B2", "VTI", 5799⟩, ⟨some "B2", "MCHI", 4000⟩, ⟨some "B2", "CASH", 201⟩]

/-- C1: for an account with positive total market value the analyzer emits,
per target ticker in configured order, actual_ratio = actual_mv / total_mv
and deviation = actual_ratio − target_weight, and total_drift_rate is the
sum of the absolute deviations divided by the drift divisor; on the spec's
example (weights VTI .5 / MCHI .3 / SPY .1 / ASHR .1, divisor 2, account A1
holding VTI 500, MCHI 200, CASH 300) the emitted row is VTI 50% (dev 0),
MCHI 20% (dev −10%), SPY 0% (dev −10%), ASHR 0% (dev −10%), drift 0.15. -/
theorem drift_computation_end_to_end :
    (∀ (cfg : Config) (rows : List Row) (acc : String),
      0 < (accountRow cfg rows acc).total_mv →
        (accountRow cfg rows acc).tickers = cfg.target_weights.map (fun tw =>
          { ticker := tw.1
            actual_mv := actualMvOf (groupRows rows acc) tw.1
            actual_ratio := actualMvOf (groupRows rows acc) tw.1 / (accountRow cfg rows acc).total_mv
            deviation := actualMvOf (groupRows rows acc) tw.1 / (accountRow cfg rows acc).total_mv
              - tw.2 })) ∧
    (∀ (cfg : Config) (rows : List Row) (acc : String),
      (accountRow cfg rows acc).total_drift_rate
        = ((accountRow cfg rows acc).tickers.map (fun e => |e.deviation|)).sum
            / cfg.drift_divisor) ∧
    (analyze_data exCfg exDf).2 = AnalyzeResult.ok [{
      account_id := "A1", total_mv := 1000,
      tickers := [⟨"VTI", 500, 1/2, 0⟩, ⟨"MCHI", 200, 1/5, -(1/10)⟩,
        ⟨"SPY", 0, 0, -(1/10)⟩, ⟨"ASHR", 0, 0, -(1/10)⟩],
      total_drift_rate := 3/20,
      ratio_us := 1/2, dev_us := -(1/10), ratio_cn := 1/5, dev_cn := -(1/5),
      is_warning := true, status := "🚨 需调仓" }] := by
  refine ⟨?_, ?_, ?_⟩
  · intro cfg rows acc h
    have h' : 0 < ((groupRows rows acc).map (fun r => r.market_value)).sum := h
    simp only [accountRow, gt_iff_lt, h', if_true]
  · intro cfg rows acc
    rfl
  · simp +decide only [exCfg, exDf, analyze_data, accountRow, groupKeys, groupRows, actualMvOf,
      holdingsGet, weightGet, normalizeRow, requiredCols, List.dedup, List.insertionSort,
      List.orderedInsert, List.filterMap, List.filter, List.map, List.contains, List.all,
      List.find?, List.reverse, List.sum, List.foldr, List.foldl, List.reverseAux]
    simp only [String.reduceBEq]
    norm_num [abs_of_pos]

/-- Witness for the hypothesis of the first part of C1's theorem: account A1
in the spec's example has total market value 1000 > 0, and the per-ticker
entries take the stated closed form. -/
theorem drift_computation_end_to_end_witness :
    0 < (accountRow exCfg exDf.rows "A1").total_mv ∧
    (accountRow exCfg exDf.rows "A1").tickers = exCfg.target_weights.map (fun tw =>
      { ticker := tw.1
        actual_mv := actualMvOf (groupRows exDf.rows "A1") tw.1
        actual_ratio := actualMvOf (groupRows exDf.rows "A1") tw.1
          / (accountRow exCfg exDf.rows "A1").total_mv
        deviation := actualMvOf (groupRows exDf.rows "A1") tw.1
          / (accountRow exCfg exDf.rows "A1").total_mv - tw.2 }) := by
  have hpos : 0 < (accountRow exCfg exDf.rows "A1").total_mv := by
    simp +decide only [exCfg, exDf, accountRow, groupRows, List.filter, List.map, List.sum,
      List.foldr]
    norm_num
  exact ⟨hpos, drift_computation_end_to_end.1 exCfg exDf.rows "A1" hpos⟩

/-- C2: the warning flag is set iff at least one of the two composite
groups (VTI+SPY, MCHI+ASHR) has absolute deviation strictly greater than
its 0.02 threshold; a deviation of exactly 0.02 does not trigger, a
deviation of 0.0201 in a single group does. -/
theorem warning_iff_any_group_exceeds_threshold :
    (∀ (cfg : Config) (rows : List Row) (acc : String),
      (accountRow cfg rows acc).is_warning = true ↔
        |(accountRow cfg rows acc).dev_us| > (0.02 : ℚ) ∨
        |(accountRow cfg rows acc).dev_cn| > (0.02 : ℚ)) ∧
    ((accountRow exCfg bdRowsExact "B1").dev_us = -(0.02 : ℚ) ∧
     (accountRow exCfg bdRowsExact "B1").dev_cn = 0 ∧
     (accountRow exCfg bdRowsExact "B1").is_warning = false) ∧
    ((accountRow exCfg bdRowsBreach "B2").dev_us = -(0.0201 : ℚ) ∧
     (accountRow exCfg bdRowsBreach "B2").dev_cn = 0 ∧
     (accountRow exCfg bdRowsBreach "B2").is_warning = true) := by
  refine ⟨?_, ?_, ?_⟩
  · intro cfg rows acc
    simp only [accountRow, Bool.or_eq_true, decide_eq_true_eq, gt_iff_lt]
  · simp +decide only [exCfg, bdRowsExact, accountRow, groupRows, actualMvOf,
      holdingsGet, weightGet, List.filter, List.map, List.find?, List.reverse, List.sum,
      List.foldr, List.reverseAux]
    simp only [String.reduceBEq]
    norm_num [abs_of_pos]
  · simp +decide only [exCfg, bdRowsBreach, accountRow, groupRows, actualMvOf,
      holdingsGet, weightGet, List.filter, List.map, List.find?, List.reverse, List.sum,
      List.foldr, List.reverseAux]
    simp only [String.reduceBEq]
    norm_num [abs_of_pos]

/-- Input whose first-seen account order is B, then A. -/
def dfBA : DataFrame :=
  { columns := ["账户", "代码", "市值"]
    rows := [⟨some "B", "VTI", 100⟩, ⟨some "A", "VTI", 100⟩] }

/-- C3 counterexample: on an input whose accounts first appear in the order
B, A, the analyzer emits A before B — `df.groupby` sorts its keys
(`sort=True` by default), so the output is NOT in first-seen order. -/
theorem account_order_not_first_seen :
    resultIds (analyze_data exCfg dfBA).2 = ["A", "B"] ∧
    resultIds (analyze_data exCfg dfBA).2 ≠ ["B", "A"] := by
  have hBA : ¬ ("B" : String) ≤ "A" := by
    rw [String.le_iff_toList_le]
    decide
  have h1 : resultIds (analyze_data exCfg dfBA).2 = ["A", "B"] := by
    simp +decide only [exCfg, dfBA, analyze_data, resultIds, accountRow, groupKeys, groupRows,
      normalizeRow, requiredCols, List.dedup, List.insertionSort, List.orderedInsert,
      List.filterMap, List.filter, List.map, List.contains, List.all, if_neg hBA]
  refine ⟨h1, ?_⟩
  rw [h1]
  simp

/-- C3 amended: the analyzer emits exactly one row per distinct non-null
account id, ordered by ascending account id (pandas sorts group keys), not
by first appearance. -/
theorem account_order_sorted_unique :
    ∀ (cfg : Config) (df : DataFrame),
      (requiredCols cfg).all (fun c => df.columns.contains c) = true →
      List.Sorted (· ≤ ·) (resultIds (analyze_data cfg df).2) ∧
      (resultIds (analyze_data cfg df).2).Nodup ∧
      (∀ a, a ∈ resultIds (analyze_data cfg df).2 ↔ ∃ r ∈ df.rows, r.account_id = some a) := by
  intro cfg df h
  have hres : (analyze_data cfg df).2
      = AnalyzeResult.ok ((groupKeys (df.rows.map normalizeRow)).map
          (accountRow cfg (df.rows.map normalizeRow))) := by
    rw [analyze_data, if_pos h]
  have hids : resultIds (analyze_data cfg df).2 = groupKeys (df.rows.map normalizeRow) := by
    rw [hres]
    show ((groupKeys (df.rows.map normalizeRow)).map
      (accountRow cfg (df.rows.map normalizeRow))).map (fun r => r.account_id) = _
    rw [List.map_map]
    exact List.map_id _
  have hkeys : (df.rows.map normalizeRow).filterMap (fun r => r.account_id)
      = df.rows.filterMap (fun r => r.account_id) := by
    rw [List.filterMap_map]
    rfl
  refine ⟨?_, ?_, ?_⟩
  · rw [hids]
    exact List.sorted_insertionSort _ _
  · rw [hids]
    exact (List.perm_insertionSort _ _).nodup_iff.mpr (List.nodup_dedup _)
  · intro a
    rw [hids]
    unfold groupKeys
    rw [List.mem_insertionSort, List.mem_dedup, hkeys, List.mem_filterMap]

/-- Witness for C3's amended theorem at the concrete input `dfBA`. -/
theorem account_order_sorted_unique_witness :
    List.Sorted (· ≤ ·) (resultIds (analyze_data exCfg dfBA).2) ∧
    (resultIds (analyze_data exCfg dfBA).2).Nodup ∧
    ("A" ∈ resultIds (analyze_data exCfg dfBA).2 ↔
      ∃ r ∈ dfBA.rows, r.account_id = some "A") := by
  have h := account_order_sorted_unique exCfg dfBA (by decide)
  exact ⟨h.1, h.2.1, h.2.2 "A"⟩

/-- A data set that lacks the configured market-value column. -/
def dfMissing : DataFrame :=
  { columns := ["账户", "代码"], rows := [] }

/-- C4: when any configured required column is absent, the analyzer returns
the schema error naming exactly the missing required columns, with the
input left untouched and no account row computed. -/
theorem missing_columns_schema_error :
    ∀ (cfg : Config) (df : DataFrame),
      (cfg.col_acc ∉ df.columns ∨ cfg.col_ticker ∉ df.columns ∨ cfg.col_mv ∉ df.columns) →
      analyze_data cfg df = (df, AnalyzeResult.schemaError
        ((requiredCols cfg).filter (fun c => !df.columns.contains c))) ∧
      (∀ c, c ∈ (requiredCols cfg).filter (fun c => !df.columns.contains c) ↔
        ((c = cfg.col_acc ∨ c = cfg.col_ticker ∨ c = cfg.col_mv) ∧ c ∉ df.columns)) := by
  intro cfg df h
  have hcheck : ¬ ((requiredCols cfg).all (fun c => df.columns.contains c) = true) := by
    simp only [List.all_eq_true, List.contains, List.elem_eq_mem, decide_eq_true_eq]
    intro hall
    rcases h with h1 | h1 | h1
    · exact h1 (hall cfg.col_acc (by simp [requiredCols, List.mem_dedup]))
    · exact h1 (hall cfg.col_ticker (by simp [requiredCols, List.mem_dedup]))
    · exact h1 (hall cfg.col_mv (by simp [requiredCols, List.mem_dedup]))
  constructor
  · rw [analyze_data, if_neg hcheck]
  · intro c
    simp [requiredCols, List.mem_filter, List.mem_dedup, List.contains, List.elem_eq_mem,
      or_assoc]

/-- Witness for C4: the configured market-value column `市值` is missing
from `dfMissing`, so the schema error is returned and `市值` is in the
reported missing set. -/
theorem missing_columns_schema_error_witness :
    analyze_data exCfg dfMissing = (dfMissing, AnalyzeResult.schemaError
      ((requiredCols exCfg).filter (fun c => !dfMissing.columns.contains c))) ∧
    ("市值" ∈ (requiredCols exCfg).filter (fun c => !dfMissing.columns.contains c) ↔
      (("市值" = exCfg.col_acc ∨ "市值" = exCfg.col_ticker ∨ "市值" = exCfg.col_mv) ∧
        "市值" ∉ dfMissing.columns)) := by
  have h := missing_columns_schema_error exCfg dfMissing (by decide)
  exact ⟨h.1, h.2 "市值"⟩

/-- An account whose only holding has market value 0. -/
def zeroRows : List Row := [⟨some "Z", "VTI", 0⟩]

/-- C5: when an account's total market value is 0, every per-ticker ratio
and both composite-group ratios are 0 (the division is guarded, never
evaluated), and total_drift_rate equals sum(target_weights)/drift_divisor
(the target weights being non-negative fractions). -/
theorem zero_total_mv_safe :
    ∀ (cfg : Config) (rows : List Row) (acc : String),
      ((groupRows rows acc).map (fun r => r.market_value)).sum = 0 →
      (∀ p ∈ cfg.target_weights, 0 ≤ p.2) →
      (accountRow cfg rows acc).total_mv = 0 ∧
      (∀ e ∈ (accountRow cfg rows acc).tickers, e.actual_ratio = 0) ∧
      (accountRow cfg rows acc).ratio_us = 0 ∧
      (accountRow cfg rows acc).ratio_cn = 0 ∧
      (accountRow cfg rows acc).total_drift_rate
        = (cfg.target_weights.map (fun p => p.2)).sum / cfg.drift_divisor := by
  intro cfg rows acc h0 hw
  refine ⟨h0, ?_, ?_, ?_, ?_⟩
  · intro e he
    simp only [accountRow, h0, gt_iff_lt, lt_self_iff_false, if_false, List.mem_map] at he
    obtain ⟨tw, _, rfl⟩ := he
    rfl
  · simp only [accountRow, h0, gt_iff_lt, lt_self_iff_false, if_false]
  · simp only [accountRow, h0, gt_iff_lt, lt_self_iff_false, if_false]
  · simp only [accountRow, h0, gt_iff_lt, lt_self_iff_false, if_false, List.map_map]
    congr 1
    refine congrArg List.sum ?_
    refine List.map_congr_left ?_
    intro p hp
    show |(0 : ℚ) - p.2| = p.2
    rw [zero_sub, abs_neg, abs_of_nonneg (hw p hp)]

/-- Witness for C5 at a concrete account (Z holds VTI with value 0): all
ratios 0 and drift rate = (0.5+0.3+0.1+0.1)/2 = 0.5. -/
theorem zero_total_mv_safe_witness :
    (accountRow exCfg zeroRows "Z").total_mv = 0 ∧
    (accountRow exCfg zeroRows "Z").ratio_us = 0 ∧
    (accountRow exCfg zeroRows "Z").ratio_cn = 0 ∧
    (accountRow exCfg zeroRows "Z").total_drift_rate
      = (exCfg.target_weights.map (fun p => p.2)).sum / exCfg.drift_divisor := by
  have h := zero_total_mv_safe exCfg zeroRows "Z"
    (by simp [zeroRows, groupRows, List.filter])
    (by intro p hp; fin_cases hp <;> norm_num)
  exact ⟨h.1, h.2.2.1, h.2.2.2.1, h.2.2.2.2⟩

/-- C6: the per-ticker entries carry exactly the key list of
target_weights, in configured order, whatever the account holds; a target
ticker with no matching holding still yields the entry
(actual_mv 0, ratio 0, deviation −target_weight). -/
theorem target_keys_always_present :
    (∀ (cfg : Config) (rows : List Row) (acc : String),
      (accountRow cfg rows acc).tickers.map (fun e => e.ticker)
        = cfg.target_weights.map (fun p => p.1)) ∧
    (∀ (cfg : Config) (rows : List Row) (acc : String) (t : String) (w : ℚ),
      (t, w) ∈ cfg.target_weights →
      (∀ r ∈ groupRows rows acc, r.ticker ≠ t) →
      ({ ticker := t, actual_mv := 0, actual_ratio := 0, deviation := -w } : TickerEntry)
        ∈ (accountRow cfg rows acc).tickers) := by
  constructor
  · intro cfg rows acc
    simp only [accountRow, List.map_map]
    rfl
  · intro cfg rows acc t w hmem habs
    have hamv : actualMvOf (groupRows rows acc) t = 0 := by
      unfold actualMvOf
      have hnil : (groupRows rows acc).filter (fun r => r.ticker == t) = [] := by
        rw [List.filter_eq_nil_iff]
        intro r hr
        simpa using habs r hr
      rw [hnil]
      rfl
    simp only [accountRow, List.mem_map]
    refine ⟨(t, w), hmem, ?_⟩
    rw [hamv]
    simp [zero_div, ite_self, zero_sub]

/-- Witness for C6: in the spec's example SPY is a target ticker that A1
does not hold, and its entry is (SPY, 0, 0, −0.1). -/
theorem target_keys_always_present_witness :
    ({ ticker := "SPY", actual_mv := 0, actual_ratio := 0, deviation := -(1/10) } : TickerEntry)
      ∈ (accountRow exCfg exDf.rows "A1").tickers := by
  have h := target_keys_always_present.2 exCfg exDf.rows "A1" "SPY" (1/10)
    (by simp [exCfg]) (by decide)
  exact h

/-- C7: an account's total_mv sums the market values of ALL its rows —
those whose ticker is tracked in target_weights and those whose ticker is
not — and total_mv is the denominator of every tracked ratio. -/
theorem total_mv_includes_untracked :
    ∀ (cfg : Config) (rows : List Row) (acc : String),
      (accountRow cfg rows acc).total_mv
        = (((groupRows rows acc).filter
              (fun r => (cfg.target_weights.map (fun p => p.1)).contains r.ticker)).map
            (fun r => r.market_value)).sum
          + (((groupRows rows acc).filter
              (fun r => !(cfg.target_weights.map (fun p => p.1)).contains r.ticker)).map
            (fun r => r.market_value)).sum ∧
      (0 < (accountRow cfg rows acc).total_mv →
        ∀ e ∈ (accountRow cfg rows acc).tickers,
          e.actual_ratio = e.actual_mv / (accountRow cfg rows acc).total_mv) := by
  intro cfg rows acc
  constructor
  · exact (sum_map_filter_add_not (groupRows rows acc)
      (fun r => (cfg.target_weights.map (fun p => p.1)).contains r.ticker)
      (fun r => r.market_value)).symm
  · intro hpos e he
    have h' : 0 < ((groupRows rows acc).map (fun r => r.market_value)).sum := hpos
    simp only [accountRow, gt_iff_lt, h', if_true, List.mem_map] at he
    obtain ⟨tw, _, rfl⟩ := he
    rfl

/-- Witness for C7's ratio part at the spec's example: A1's VTI entry has
ratio 500 / total_mv. -/
theorem total_mv_includes_untracked_witness :
    (⟨"VTI", 500, 1/2, 0⟩ : TickerEntry) ∈ (accountRow exCfg exDf.rows "A1").tickers ∧
    (1/2 : ℚ) = 500 / (accountRow exCfg exDf.rows "A1").total_mv := by
  have hpos : 0 < (accountRow exCfg exDf.rows "A1").total_mv := by
    simp +decide only [exCfg, exDf, accountRow, groupRows, List.filter, List.map, List.sum,
      List.foldr]
    norm_num
  have hmem : (⟨"VTI", 500, 1/2, 0⟩ : TickerEntry) ∈ (accountRow exCfg exDf.rows "A1").tickers := by
    simp +decide only [exCfg, exDf, accountRow, groupRows, actualMvOf, List.filter, List.map,
      List.sum, List.foldr]
    norm_num
  exact ⟨hmem, (total_mv_includes_untracked exCfg exDf.rows "A1").2 hpos _ hmem⟩

/-- C8: the outcome of the analysis depends on each ticker cell only
through its normalization (trim + uppercase), applied before any grouping
or lookup: two inputs that agree row-by-row on account id and market value
and whose tickers normalize equally produce identical outcomes. -/
theorem ticker_normalization_insensitive :
    ∀ (cfg : Config) (cols : List String) (rows₁ rows₂ : List Row),
      List.Forall₂ (fun a b => a.account_id = b.account_id ∧ a.market_value = b.market_value ∧
        normTicker a.ticker = normTicker b.ticker) rows₁ rows₂ →
      (analyze_data cfg ⟨cols, rows₁⟩).2 = (analyze_data cfg ⟨cols, rows₂⟩).2 := by
  intro cfg cols rows₁ rows₂ hf
  have hmap : rows₁.map normalizeRow = rows₂.map normalizeRow := by
    induction hf with
    | nil => rfl
    | @cons a b l₁ l₂ hab htail ih =>
      obtain ⟨ha, hm, ht⟩ := hab
      have hrow : normalizeRow a = normalizeRow b := by
        cases a
        cases b
        simp_all [normalizeRow]
      simp [hrow, ih]
  by_cases hc : (requiredCols cfg).all (fun c => cols.contains c) = true
  · show (analyze_data cfg ⟨cols, rows₁⟩).2 = (analyze_data cfg ⟨cols, rows₂⟩).2
    rw [analyze_data, analyze_data, if_pos hc, if_pos hc]
    simp only [hmap]
  · rw [analyze_data, analyze_data, if_neg hc, if_neg hc]

/-- Witness for C8: a raw " vti " cell and a raw "Vti" cell lead to the
same analysis outcome. -/
theorem ticker_normalization_insensitive_witness :
    (analyze_data exCfg ⟨["账户", "代码", "市值"], [⟨some "A1", " vti ", 500⟩]⟩).2
      = (analyze_data exCfg ⟨["账户", "代码", "市值"], [⟨some "A1", "Vti", 500⟩]⟩).2 :=
  ticker_normalization_insensitive exCfg ["账户", "代码", "市值"]
    [⟨some "A1", " vti ", 500⟩] [⟨some "A1", "Vti", 500⟩]
    (List.Forall₂.cons ⟨rfl, rfl, by decide⟩ List.Forall₂.nil)

/-- A raw data frame whose ticker cell is not yet normalized. -/
def rawDf : DataFrame :=
  { columns := ["账户", "代码", "市值"]
    rows := [⟨some "A1", " vti ", 500⟩] }

/-- C9 counterexample: the call is NOT free of side effects on its input —
`df[col_ticker] = df[col_ticker].astype(str).str.strip().str.upper()`
rewrites the ticker column of the caller's frame in place, so after the
call the frame differs from the input whenever some ticker was not already
normalized. -/
theorem analyze_mutates_input :
    (analyze_data exCfg rawDf).1 ≠ rawDf := by
  intro hcontra
  have h1 : (analyze_data exCfg rawDf).1 = ⟨rawDf.columns, rawDf.rows.map normalizeRow⟩ := by
    rw [analyze_data, if_pos (by decide)]
  rw [h1] at hcontra
  have h2 := congrArg (fun d => d.rows.map (fun r => r.ticker)) hcontra
  simp only [rawDf, normalizeRow, List.map_cons, List.map_nil] at h2
  have h3 : normTicker " vti " = "VTI" := by decide
  rw [h3] at h2
  simp at h2

/-- C9 amended: the analyzer normalizes the input's ticker column in place
(so the records change whenever a ticker is not already normalized), but it
is deterministic and idempotent — running it again on the frame it left
behind reproduces exactly the same frame and the same outcome. -/
theorem analyze_idempotent_after_mutation :
    ∀ (cfg : Config) (df : DataFrame),
      analyze_data cfg (analyze_data cfg df).1 = analyze_data cfg df := by
  intro cfg df
  by_cases hc : (requiredCols cfg).all (fun c => df.columns.contains c) = true
  · have hfst : (analyze_data cfg df).1 = ⟨df.columns, df.rows.map normalizeRow⟩ := by
      rw [analyze_data, if_pos hc]
    have hmap : (df.rows.map normalizeRow).map normalizeRow = df.rows.map normalizeRow := by
      rw [List.map_map]
      exact List.map_congr_left (fun r _ => normalizeRow_idem r)
    rw [hfst, analyze_data, analyze_data, if_pos hc, if_pos hc]
    simp only [hmap]
  · have hfst : (analyze_data cfg df).1 = df := by
      rw [analyze_data, if_neg hc]
    rw [hfst]

/-- C10: a row whose account-id cell is null is silently dropped — the
analysis outcome with the row present equals the outcome with it removed
(no account row for it, no contribution to any total, no error). -/
theorem null_account_rows_dropped :
    ∀ (cfg : Config) (cols : List String) (pre post : List Row) (r : Row),
      r.account_id = none →
      (analyze_data cfg ⟨cols, pre ++ r :: post⟩).2
        = (analyze_data cfg ⟨cols, pre ++ post⟩).2 := by
  intro cfg cols pre post r h
  by_cases hc : (requiredCols cfg).all (fun c => cols.contains c) = true
  · have hgroup : ∀ acc, groupRows ((pre ++ r :: post).map normalizeRow) acc
        = groupRows ((pre ++ post).map normalizeRow) acc := by
      intro acc
      have hbeq : ((normalizeRow r).account_id == some acc) = false := by
        rw [normalizeRow_account_id, h]
        rfl
      simp only [groupRows, List.map_append, List.map_cons, List.filter_append,
        List.filter_cons, hbeq, Bool.false_eq_true, if_false]
    have hkeys : groupKeys ((pre ++ r :: post).map normalizeRow)
        = groupKeys ((pre ++ post).map normalizeRow) := by
      have hid : ∀ l : List Row, (l.map normalizeRow).filterMap (fun x => x.account_id)
          = l.filterMap (fun x => x.account_id) := by
        intro l
        rw [List.filterMap_map]
        rfl
      simp only [groupKeys, hid, List.filterMap_append, List.filterMap_cons, h]
    rw [analyze_data, analyze_data, if_pos hc, if_pos hc]
    simp only [hkeys]
    refine congrArg AnalyzeResult.ok ?_
    refine List.map_congr_left ?_
    intro k _
    exact accountRow_congr cfg k (hgroup k)
  · rw [analyze_data, analyze_data, if_neg hc, if_neg hc]

/-- Witness for C10: inserting a null-account row worth 999 in front of the
spec's example changes nothing in the outcome. -/
theorem null_account_rows_dropped_witness :
    (analyze_data exCfg ⟨exDf.columns, ⟨none, "X", 999⟩ :: exDf.rows⟩).2
      = (analyze_data exCfg exDf).2 :=
  null_account_rows_dropped exCfg exDf.columns [] exDf.rows ⟨none, "X", 999⟩ rfl

end DriftTool
